import Mathlib

/-!
Shallow embedding of `map_embeddings.py` (latent-variable-vecmap), the
iterative mapping-and-induction engine for cross-lingual word embeddings.
Machine floating-point arithmetic is modelled by exact rationals; the
external SVD routine is modelled by hypotheses asserting that given factors
form a singular-value decomposition.
-/

set_option maxHeartbeats 1000000

namespace VecMap

open Matrix

/-! ## Self-learning loop state (lines 197-200)

`prev_objective = objective = -100.`, `it = 1`, and the loop guard
`while it == 1 or objective - prev_objective >= args.threshold`.
-/

/-- State of the self-learning `while` loop: iteration counter `it`,
`prev_objective` and `objective`. -/
structure SLState where
  it : ℕ
  prev : ℚ
  obj : ℚ

/-- Initial loop state: `prev_objective = objective = -100.`, `it = 1`
(line 197-198). -/
def slInit : SLState := ⟨1, -100, -100⟩

/-- The loop guard of line 200:
`while it == 1 or objective - prev_objective >= args.threshold`. -/
def slGuard (threshold : ℚ) (s : SLState) : Bool :=
  s.it == 1 || decide (threshold ≤ s.obj - s.prev)

/-- One pass of the bookkeeping at the end of an iteration (lines 367 and
401): the old objective becomes `prev_objective`, the freshly computed
objective (an arbitrary function of the state) is stored, `it` increments. -/
def slStep (newObjective : SLState → ℚ) (s : SLState) : SLState :=
  ⟨s.it + 1, s.obj, newObjective s⟩

/-! ## Configuration check (lines 74-77)

`if (args.src_dewhiten is not None or args.trg_dewhiten is not None) and not
args.whiten: sys.exit(-1)` — executed before any embedding file is opened
(line 93 onwards).
-/

/-- Argument of `--src_dewhiten` / `--trg_dewhiten` (choices `src`, `trg`). -/
inductive DewhitenSide
  | src
  | trg

/-- The slice of the parsed arguments consulted by the de-whitening
configuration check. -/
structure Config where
  whiten : Bool
  src_dewhiten : Option DewhitenSide
  trg_dewhiten : Option DewhitenSide

/-- The condition of line 75. -/
def dewhitenMisconfigured (c : Config) : Bool :=
  (c.src_dewhiten.isSome || c.trg_dewhiten.isSome) && !c.whiten

/-- The program checks the de-whitening configuration first (lines 74-77)
and only afterwards runs the rest of `main` (reading embeddings, the
training loop, ...), abstracted here as `rest`.  `sys.exit(-1)` is modelled
as `Except.error (-1)`. -/
def mainGate {α : Type} (c : Config) (rest : Config → α) : Except Int α :=
  if dewhitenMisconfigured c then Except.error (-1) else Except.ok (rest c)

/-! ## Argparse destinations and the LAPMOD branch (lines 35-72, 262-275)

The argument parser defines exactly the destinations below (hyphens become
underscores).  The LAPMOD branch of dictionary induction reads
`args.n_similar` (lines 269-270), which is not among them: on an argparse
namespace this raises `AttributeError`.
-/

/-- Every attribute defined on `args` by the parser of lines 35-72. -/
def parserDests : List String :=
  ["src_input", "trg_input", "src_output", "trg_output", "encoding",
   "precision", "cuda", "num_words", "dictionary", "test_dict", "normalize",
   "orthogonal", "unconstrained", "self_learning", "direction", "numerals",
   "identical", "threshold", "validation", "log", "verbose", "lapmod",
   "lapmod_chunk_size", "lap_repeats", "lap_prop", "lap_rank", "whiten",
   "src_reweight", "trg_reweight", "src_dewhiten", "trg_dewhiten",
   "dim_reduction"]

/-- Python exceptions relevant to the modelled fragments. -/
inductive PyExc
  | attributeError (attr : String)

/-- Attribute access on the argparse namespace: defined attributes succeed,
anything else raises `AttributeError`. -/
def getattrNS (dests : List String) (a : String) : Except PyExc Unit :=
  if a ∈ dests then Except.ok () else Except.error (.attributeError a)

/-- The entry of the LAPMOD branch (lines 262-269): choose `n_rows` from
`args.lap_rank` (lines 264-268), then evaluate
`cc = np.empty(n_rows * args.n_similar)` (line 269), whose attribute access
`args.n_similar` is the first use of an undefined destination.  Everything
after that line (building `kk`, `ii`, the chunked retrieval, `lapmod`, and
the final dictionary) is abstracted as the continuation `rest`. -/
def lapmodInduction (α : Type) (dests : List String) (lap_rank : Option ℕ)
    (xwRows : ℕ) (rest : ℕ → Except PyExc α) : Except PyExc α :=
  let n_rows := match lap_rank with
    | some r => r
    | none => xwRows
  match getattrNS dests "n_similar" with
  | .error e => .error e
  | .ok _ => rest n_rows

/-! ## Blockwise nearest-neighbour argmax (lines 255-264, 334-364)

The similarity matrix `sim = xw[i:j].dot(zw[k:l].T)` is processed in
blocks; per source row the running best is initialised to the sentinel
`(0, -100)` (lines 255-257) and updated where `val > best_sim` (lines
346-348).  Rows are lists of rationals, matrices lists of rows.
-/

/-- Dot product of two embedding rows. -/
def dot (a b : List ℚ) : ℚ := (List.zipWith (· * ·) a b).sum

/-- One row `xw[i].dot(zw.T)` of the similarity matrix. -/
def simRow (xi : List ℚ) (z : List (List ℚ)) : List ℚ :=
  z.map (fun zj => dot xi zj)

/-- Index the entries of a list starting from `n`. -/
def enumF {γ : Type} : ℕ → List γ → List (ℕ × γ)
  | _, [] => []
  | n, v :: r => (n, v) :: enumF (n + 1) r

/-- Keep the incumbent `(index, value)` pair unless the candidate's value is
strictly greater (the update of lines 346-348; ties keep the earlier
index, as `numpy.argmax` does). -/
def bestStep (acc p : ℕ × ℚ) : ℕ × ℚ := if acc.2 < p.2 then p else acc

/-- Model of `numpy.argmax` over one row together with the maximal value: the first
index attaining the maximum.  (On an empty row the sentinel `(0, -100)` is
returned; the program never takes an argmax of an empty row.) -/
def npArgmax : List ℚ → ℕ × ℚ
  | [] => (0, -100)
  | v :: r => (enumF 1 r).foldl bestStep (0, v)

/-- Fuelled worker for the blockwise loop over column blocks of size `B`
(lines 338-348): take the argmax of the next block, shift its index by the
block offset `k`, merge it into the running best with a strict comparison,
and continue after the block.  The fuel is an upper bound on the number of
remaining entries; each step consumes at least one entry. -/
def blockLoopAux (B : ℕ) : ℕ → ℕ → ℕ × ℚ → List ℚ → ℕ × ℚ
  | _, _, acc, [] => acc
  | 0, _, acc, _ :: _ => acc
  | fuel + 1, k, acc, v :: r =>
    let blk := v :: r.take (B - 1)
    let p := npArgmax blk
    blockLoopAux B fuel (k + B) (bestStep acc (k + p.1, p.2)) (r.drop (B - 1))

/-- The blockwise best-match computation for one similarity row, block
ceiling `B`, starting at global offset `k` from the running best `acc`
(initially the sentinel `(0, -100)` of lines 255-257). -/
def blockLoop (B k : ℕ) (acc : ℕ × ℚ) (row : List ℚ) : ℕ × ℚ :=
  blockLoopAux B row.length k acc row

/-! ## Dictionary induction directions (lines 342-364) -/

/-- Choices of `--direction` (line 53). -/
inductive Direction
  | forward
  | backward
  | union

/-- Forward induction: every source row `i` is paired with the target index
of its blockwise best match (lines 342-348, 356-358). -/
def nnForward (B : ℕ) (x z : List (List ℚ)) : List (ℕ × ℕ) :=
  (enumF 0 x).map (fun p => (p.1, (blockLoop B 0 (0, -100) (simRow p.2 z)).1))

/-- Backward induction: every target row `k` is paired with the source index
of its blockwise best match (lines 349-355, 359-361). -/
def nnBackward (B : ℕ) (x z : List (List ℚ)) : List (ℕ × ℕ) :=
  (enumF 0 z).map (fun p => ((blockLoop B 0 (0, -100) (simRow p.2 x)).1, p.1))

/-- The induced training dictionary per direction (lines 356-364): forward
pairs, backward pairs, or their concatenation (`xp.concatenate`, lines
362-364). -/
def inducedDictionary (dir : Direction) (B : ℕ) (x z : List (List ℚ)) :
    List (ℕ × ℕ) :=
  match dir with
  | .forward => nnForward B x z
  | .backward => nnBackward B x z
  | .union => nnForward B x z ++ nnBackward B x z

/-! ## Mapping solvers (lines 202-224)

Embedding matrices have one row per word.  `x[src_indices]` is
`Matrix.submatrix x src id`; the index functions `src : Fin k → Fin nx`,
`trg : Fin k → Fin nz` model the training dictionary (validity of every
index is enforced by the types, non-emptiness by `0 < k`).  `numpy`'s SVD
`u, s, vt = svd(m)` returns factors with `m = u * diagonal s * vt`; it is an
external routine, modelled by the predicate `IsSVD`.
-/

/-- Predicate: `(u, s, vt)` is a singular-value decomposition of the square matrix `M`
as returned by `numpy.linalg.svd`: `M = u * diagonal s * vt` with `u` and
`vt` orthogonal. -/
def IsSVD {d : ℕ} (M u : Matrix (Fin d) (Fin d) ℚ) (s : Fin d → ℚ)
    (vt : Matrix (Fin d) (Fin d) ℚ) : Prop :=
  M = u * Matrix.diagonal s * vt ∧
    u * uᵀ = 1 ∧ uᵀ * u = 1 ∧ vt * vtᵀ = 1 ∧ vtᵀ * vt = 1

/-- The matrix decomposed by the orthogonal policy (line 203):
`z[trg_indices].T.dot(x[src_indices])` — with the selected embeddings
arranged as columns this is `Zdict · Xdictᵀ`. -/
def procrustesInput {nx nz d k : ℕ} (x : Matrix (Fin nx) (Fin d) ℚ)
    (z : Matrix (Fin nz) (Fin d) ℚ) (src : Fin k → Fin nx)
    (trg : Fin k → Fin nz) : Matrix (Fin d) (Fin d) ℚ :=
  (z.submatrix trg id)ᵀ * x.submatrix src id

/-- The mapping matrix of line 204: `w = vt.T.dot(u.T)`. -/
def orthogonalW {d : ℕ} (u vt : Matrix (Fin d) (Fin d) ℚ) :
    Matrix (Fin d) (Fin d) ℚ :=
  vtᵀ * uᵀ

/-- The orthogonal policy (lines 202-206): given the SVD factors returned
for `procrustesInput`, produce `xw = x.dot(w)` and `zw = z`. -/
def orthogonalStep {nx nz d : ℕ} (x : Matrix (Fin nx) (Fin d) ℚ)
    (z : Matrix (Fin nz) (Fin d) ℚ) (u vt : Matrix (Fin d) (Fin d) ℚ) :
    Matrix (Fin nx) (Fin d) ℚ × Matrix (Fin nz) (Fin d) ℚ :=
  (x * orthogonalW u vt, z)

/-- Model of `numpy.linalg.inv`: raises `LinAlgError` (modelled as `none`) on a
singular matrix, otherwise returns the inverse `det⁻¹ • adjugate`. -/
def npLinalgInv {d : ℕ} (M : Matrix (Fin d) (Fin d) ℚ) :
    Option (Matrix (Fin d) (Fin d) ℚ) :=
  if M.det = 0 then none else some (M.det⁻¹ • M.adjugate)

/-- The unconstrained policy (lines 207-211):
`x_pseudoinv = inv(x[src].T.dot(x[src])).dot(x[src].T)`,
`w = x_pseudoinv.dot(z[trg])`, `xw = x.dot(w)`, `zw = z`.  The uncaught
`LinAlgError` of the inversion propagates as `none`. -/
def unconstrainedStep {nx nz d k : ℕ} (x : Matrix (Fin nx) (Fin d) ℚ)
    (z : Matrix (Fin nz) (Fin d) ℚ) (src : Fin k → Fin nx)
    (trg : Fin k → Fin nz) :
    Option (Matrix (Fin nx) (Fin d) ℚ × Matrix (Fin nz) (Fin d) ℚ) :=
  match npLinalgInv ((x.submatrix src id)ᵀ * x.submatrix src id) with
  | none => none
  | some iv =>
    some (x * (iv * (x.submatrix src id)ᵀ * z.submatrix trg id), z)

/-- The whitening transform of lines 217-219 built from the SVD factors of
the dictionary-selected rows: `vt.T.dot(diag(1/s)).dot(vt)`. -/
def whitening_transformation {d : ℕ} (s : Fin d → ℚ)
    (vt : Matrix (Fin d) (Fin d) ℚ) : Matrix (Fin d) (Fin d) ℚ :=
  vtᵀ * Matrix.diagonal (fun i => 1 / s i) * vt

/-! ## Validation-dictionary coverage (lines 160-175, 416-432)

Each dictionary line with both words in vocabulary adds the source word to
`validation` (as a key) and to `vocab`; a line failing either lookup adds
the source word to `oov`.  Afterwards `oov -= vocab` and
`coverage = len(validation) / (len(validation) + len(oov))`.  Since the
word-to-index maps are injective, sets of source indices are modelled as
sets of source words; the per-key target sets do not influence coverage and
are omitted.
-/

/-- The three sets accumulated by the dictionary-reading loop. -/
structure CovState (α : Type) where
  validation : Finset α
  vocab : Finset α
  oov : Finset α

/-- Processing of one dictionary line `(src, trg)` (lines 165-173 /
421-429). -/
def covStep {α : Type} [DecidableEq α] (sv tv : List α) (st : CovState α)
    (p : α × α) : CovState α :=
  if p.1 ∈ sv ∧ p.2 ∈ tv then
    { st with validation := insert p.1 st.validation,
              vocab := insert p.1 st.vocab }
  else { st with oov := insert p.1 st.oov }

/-- The whole dictionary-reading loop, starting from three empty sets. -/
def covLoop {α : Type} [DecidableEq α] (sv tv : List α)
    (dict : List (α × α)) : CovState α :=
  dict.foldl (covStep sv tv) ⟨∅, ∅, ∅⟩

/-- Final computation `oov -= vocab; coverage = len(validation) / (len(validation) +
len(oov))` (lines 174-175 / 431-432). -/
def validationCoverage {α : Type} [DecidableEq α] (sv tv : List α)
    (dict : List (α × α)) : ℚ :=
  ((covLoop sv tv dict).validation.card : ℚ) /
    (((covLoop sv tv dict).validation.card : ℚ) +
      (((covLoop sv tv dict).oov \ (covLoop sv tv dict).vocab).card : ℚ))

/-- The known source words of a reference dictionary: those appearing in a
line whose source word is in the source vocabulary and whose target word is
in the target vocabulary. -/
def knownSet {α : Type} [DecidableEq α] (sv tv : List α)
    (dict : List (α × α)) : Finset α :=
  ((dict.filter (fun p => decide (p.1 ∈ sv ∧ p.2 ∈ tv))).map Prod.fst).toFinset

/-- The source words whose every line fails a vocabulary lookup. -/
def badSet {α : Type} [DecidableEq α] (sv tv : List α)
    (dict : List (α × α)) : Finset α :=
  ((dict.filter (fun p => !decide (p.1 ∈ sv ∧ p.2 ∈ tv))).map Prod.fst).toFinset

/-- All source words occurring in the dictionary. -/
def srcSet {α : Type} [DecidableEq α] (dict : List (α × α)) : Finset α :=
  (dict.map Prod.fst).toFinset

/-- The strictly out-of-vocabulary source words: occurring, but known in no
line. -/
def oovSet {α : Type} [DecidableEq α] (sv tv : List α)
    (dict : List (α × α)) : Finset α :=
  srcSet dict \ knownSet sv tv dict

/-! ## Theorems -/

/-- The length of an indexed enumeration. -/
theorem enumF_length {γ : Type} (n : ℕ) (l : List γ) :
    (enumF n l).length = l.length := by
  induction l generalizing n with
  | nil => rfl
  | cons v r ih => simp [enumF, ih]

/-- C1: the self-learning loop always executes its first iteration (the
previous objective being initialized to the sentinel `-100`), and after any
completed iteration (`it ≠ 1`) the guard fails — the loop halts — exactly
when `objective - prev_objective < threshold`; while the difference is at
least the threshold the guard holds and the loop continues. -/
theorem slGuard_first_iteration_and_halting (t : ℚ) (s : SLState) :
    slGuard t slInit = true ∧ slInit.prev = -100 ∧
      (s.it = 1 → slGuard t s = true) ∧
      (s.it ≠ 1 → (slGuard t s = false ↔ s.obj - s.prev < t)) ∧
      (s.it ≠ 1 → t ≤ s.obj - s.prev → slGuard t s = true) := by
  refine ⟨rfl, rfl, ?_, ?_, ?_⟩
  · intro h
    simp [slGuard, h]
  · intro h
    have hb : (s.it == 1) = false := by simp [h]
    simp [slGuard, hb, not_le]
  · intro _ h2
    simp [slGuard, h2]

/-- Witness for C1 at `threshold = 1` and the state `⟨it = 2, prev = 0,
obj = 5⟩`. -/
theorem slGuard_first_iteration_and_halting_witness :
    slGuard 1 slInit = true ∧
      (slGuard 1 ⟨2, 0, 5⟩ = false ↔ (5 : ℚ) - 0 < 1) ∧
      slGuard 1 ⟨2, 0, 5⟩ = true :=
  ⟨(slGuard_first_iteration_and_halting 1 ⟨2, 0, 5⟩).1,
   (slGuard_first_iteration_and_halting 1 ⟨2, 0, 5⟩).2.2.2.1 (by decide),
   (slGuard_first_iteration_and_halting 1 ⟨2, 0, 5⟩).2.2.2.2 (by decide)
     (by norm_num)⟩

/-- C2: under the orthogonal policy, for every pair of embedding matrices,
every non-empty training dictionary of valid row indices, and every SVD
`(u, s, vt)` of the decomposed cross matrix (`z[trg].T.dot(x[src])`, i.e.
`Zdict·Xdictᵀ` with the selected embeddings as columns), the solver returns
`Xw = X·W` with `W` reassembled as `vtᵀ·uᵀ` from the SVD factors, and
`Zw = Z` unchanged. -/
theorem orthogonal_solver_spec {nx nz d k : ℕ} (x : Matrix (Fin nx) (Fin d) ℚ)
    (z : Matrix (Fin nz) (Fin d) ℚ) (src : Fin k → Fin nx)
    (trg : Fin k → Fin nz) (u : Matrix (Fin d) (Fin d) ℚ) (s : Fin d → ℚ)
    (vt : Matrix (Fin d) (Fin d) ℚ) (hk : 0 < k)
    (hsvd : IsSVD (procrustesInput x z src trg) u s vt) :
    orthogonalStep x z u vt = (x * (vtᵀ * uᵀ), z) := rfl

/-- Witness for C2 on 1×1 identity embeddings with the singleton identity
dictionary and the trivial SVD. -/
theorem orthogonal_solver_spec_witness :
    orthogonalStep (1 : Matrix (Fin 1) (Fin 1) ℚ)
        (1 : Matrix (Fin 1) (Fin 1) ℚ) 1 1 =
      (1 * ((1 : Matrix (Fin 1) (Fin 1) ℚ)ᵀ * (1 : Matrix (Fin 1) (Fin 1) ℚ)ᵀ),
        1) :=
  @orthogonal_solver_spec 1 1 1 1 1 1 id id 1 (fun _ => 1) 1 Nat.one_pos
    (by refine ⟨?_, ?_, ?_, ?_, ?_⟩ <;>
      simp [procrustesInput, Matrix.transpose_one])

/-- C3: the mapping matrix `W = vtᵀ·uᵀ` produced by the orthogonal policy
is orthogonal, `WᵀW = I`, for any SVD of the (full-rank, i.e. nonzero
singular values) dictionary-selected cross matrix — exactly, over exact
arithmetic. -/
theorem orthogonalW_orthogonal {nx nz d k : ℕ} (x : Matrix (Fin nx) (Fin d) ℚ)
    (z : Matrix (Fin nz) (Fin d) ℚ) (src : Fin k → Fin nx)
    (trg : Fin k → Fin nz) (u : Matrix (Fin d) (Fin d) ℚ) (s : Fin d → ℚ)
    (vt : Matrix (Fin d) (Fin d) ℚ)
    (hsvd : IsSVD (procrustesInput x z src trg) u s vt)
    (hfullrank : ∀ i, s i ≠ 0) :
    (orthogonalW u vt)ᵀ * orthogonalW u vt = 1 := by
  obtain ⟨-, hu1, -, hv1, -⟩ := hsvd
  rw [orthogonalW, Matrix.transpose_mul, Matrix.transpose_transpose,
    Matrix.transpose_transpose, Matrix.mul_assoc,
    ← Matrix.mul_assoc vt vtᵀ uᵀ, hv1, Matrix.one_mul, hu1]

/-- Witness for C3 on the same trivial instance as the C2 witness. -/
theorem orthogonalW_orthogonal_witness :
    (orthogonalW (1 : Matrix (Fin 1) (Fin 1) ℚ) 1)ᵀ *
      orthogonalW (1 : Matrix (Fin 1) (Fin 1) ℚ) 1 = 1 :=
  @orthogonalW_orthogonal 1 1 1 1 1 1 id id 1 (fun _ => 1) 1
    (by refine ⟨?_, ?_, ?_, ?_, ?_⟩ <;>
      simp [procrustesInput, Matrix.transpose_one])
    (fun _ => one_ne_zero)

/-- C5: the whitening transform built from a thin SVD `R = u·diag(s)·vt` of
the full-rank dictionary-selected rows (`uᵀu = I`, `vt` orthogonal, all
singular values nonzero) satisfies `WxᵀRᵀRWx = I` exactly. -/
theorem whitening_correct {k d : ℕ} (R u : Matrix (Fin k) (Fin d) ℚ)
    (s : Fin d → ℚ) (vt : Matrix (Fin d) (Fin d) ℚ)
    (hR : R = u * Matrix.diagonal s * vt) (hu : uᵀ * u = 1)
    (hv1 : vt * vtᵀ = 1) (hv2 : vtᵀ * vt = 1) (hs : ∀ i, s i ≠ 0) :
    (whitening_transformation s vt)ᵀ * (Rᵀ * R) *
      whitening_transformation s vt = 1 := by
  have key : ∀ A B : Matrix (Fin d) (Fin d) ℚ,
      vtᵀ * A * vt * (vtᵀ * B * vt) = vtᵀ * (A * B) * vt := by
    intro A B
    calc vtᵀ * A * vt * (vtᵀ * B * vt)
        = vtᵀ * A * (vt * vtᵀ) * (B * vt) := by noncomm_ring
      _ = vtᵀ * (A * B) * vt := by rw [hv1, Matrix.mul_one]; noncomm_ring
  have hRtR : Rᵀ * R =
      vtᵀ * (Matrix.diagonal s * Matrix.diagonal s) * vt := by
    subst hR
    simp only [Matrix.transpose_mul, Matrix.diagonal_transpose,
      Matrix.mul_assoc]
    rw [← Matrix.mul_assoc uᵀ u, hu, Matrix.one_mul]
  have hWt : (whitening_transformation s vt)ᵀ =
      whitening_transformation s vt := by
    simp [whitening_transformation, Matrix.transpose_mul, Matrix.mul_assoc]
  rw [hWt, hRtR, whitening_transformation, key, key]
  have hdiag : Matrix.diagonal (fun i => 1 / s i) *
      (Matrix.diagonal s * Matrix.diagonal s) *
      Matrix.diagonal (fun i => 1 / s i) = 1 := by
    simp only [Matrix.diagonal_mul_diagonal]
    ext i j
    rcases eq_or_ne i j with rfl | hij
    · have h := hs i
      simp only [Matrix.diagonal_apply_eq, Matrix.one_apply_eq, Pi.mul_apply]
      field_simp
    · simp [Matrix.diagonal_apply_ne _ hij, Matrix.one_apply_ne hij]
  rw [hdiag, Matrix.mul_one, hv2]

/-- Witness for C5 on the 1×1 identity row matrix with its trivial SVD. -/
theorem whitening_correct_witness :
    (whitening_transformation (fun _ : Fin 1 => (1 : ℚ)) 1)ᵀ *
      ((1 : Matrix (Fin 1) (Fin 1) ℚ)ᵀ * 1) *
      whitening_transformation (fun _ : Fin 1 => (1 : ℚ)) 1 = 1 :=
  whitening_correct 1 1 (fun _ => 1) 1 (by simp) (by simp) (by simp)
    (by simp) (fun _ => one_ne_zero)

/-- C6: in union direction the induced training dictionary is the
concatenation of the forward pairs followed by the backward pairs, without
deduplication, so its size is the number of source rows plus the number of
target rows. -/
theorem union_direction_concat (B : ℕ) (x z : List (List ℚ)) :
    inducedDictionary .union B x z =
        inducedDictionary .forward B x z ++ inducedDictionary .backward B x z ∧
      (inducedDictionary .union B x z).length = x.length + z.length := by
  refine ⟨rfl, ?_⟩
  simp [inducedDictionary, nnForward, nnBackward, enumF_length]

/-- C7: under the unconstrained policy, when `Xdictᵀ·Xdict` is invertible
the solver returns `Xw = X·(XdictᵀXdict)⁻¹Xdictᵀ·Zdict` and `Zw = Z`
unchanged; when it is singular the unguarded inversion raises, and the
error propagates fatally (`none`) with no catch or recovery. -/
theorem unconstrained_solver_spec {nx nz d k : ℕ}
    (x : Matrix (Fin nx) (Fin d) ℚ) (z : Matrix (Fin nz) (Fin d) ℚ)
    (src : Fin k → Fin nx) (trg : Fin k → Fin nz) :
    unconstrainedStep x z src trg =
      if ((x.submatrix src id)ᵀ * x.submatrix src id).det = 0 then none
      else some (x * (((x.submatrix src id)ᵀ * x.submatrix src id)⁻¹ *
        (x.submatrix src id)ᵀ * z.submatrix trg id), z) := by
  have hinv : ∀ M : Matrix (Fin d) (Fin d) ℚ, M⁻¹ = M.det⁻¹ • M.adjugate :=
    fun M => by rw [Matrix.inv_def, Ring.inverse_eq_inv]
  by_cases h : ((x.submatrix src id)ᵀ * x.submatrix src id).det = 0
  · rw [if_pos h]
    unfold unconstrainedStep
    rw [npLinalgInv, if_pos h]
  · rw [if_neg h]
    unfold unconstrainedStep
    rw [npLinalgInv, if_neg h, ← hinv]

/-- C8: requesting source or target de-whitening without whitening enabled
makes the program exit with the fatal status `-1` before running anything
else of `main` — in particular independently of everything downstream
(no embedding is read, no iteration is computed). -/
theorem dewhiten_requires_whiten (α : Type) (c : Config)
    (rest rest2 : Config → α)
    (h1 : c.src_dewhiten.isSome = true ∨ c.trg_dewhiten.isSome = true)
    (h2 : c.whiten = false) :
    mainGate c rest = Except.error (-1) ∧
      mainGate c rest = mainGate c rest2 ∧ (-1 : Int) ≠ 0 := by
  have hm : dewhitenMisconfigured c = true := by
    rcases h1 with h | h <;> simp [dewhitenMisconfigured, h, h2]
  refine ⟨?_, ?_, by decide⟩ <;> simp [mainGate, hm]

/-- Witness for C8: `--src_dewhiten src` without `--whiten`. -/
theorem dewhiten_requires_whiten_witness :
    mainGate ⟨false, some .src, none⟩ (fun _ => (0 : ℕ)) =
        Except.error (-1) ∧
      mainGate ⟨false, some .src, none⟩ (fun _ => (0 : ℕ)) =
        mainGate ⟨false, some .src, none⟩ (fun _ => (1 : ℕ)) ∧
      (-1 : Int) ≠ 0 :=
  dewhiten_requires_whiten ℕ ⟨false, some .src, none⟩ (fun _ => 0)
    (fun _ => 1) (Or.inl rfl) rfl

/-- C10: the argument parser never defines `n_similar`, so with assignment
(LAPMOD) mode enabled the dictionary-induction step hits the undefined
attribute at `cc = np.empty(n_rows * args.n_similar)` and raises
`AttributeError` before producing any dictionary, for every `lap_rank`
configuration, every embedding size and every continuation. -/
theorem lapmod_n_similar_undefined (α : Type) (lap_rank : Option ℕ)
    (xwRows : ℕ) (rest : ℕ → Except PyExc α) :
    "n_similar" ∉ parserDests ∧
      lapmodInduction α parserDests lap_rank xwRows rest =
        Except.error (.attributeError "n_similar") := by
  have h : "n_similar" ∉ parserDests := by decide
  refine ⟨h, ?_⟩
  simp [lapmodInduction, getattrNS, h]

/-! ### Blockwise argmax: fold lemmas -/

/-- The function `bestStep` is associative in the fold sense: merging then comparing
equals comparing then merging. -/
theorem bestStep_assoc (a b c : ℕ × ℚ) :
    bestStep (bestStep a b) c = bestStep a (bestStep b c) := by
  unfold bestStep
  split_ifs <;> first | rfl | (exfalso; linarith)

/-- Folding from a merged accumulator equals folding and then merging. -/
theorem foldl_bestStep_exchange (l : List (ℕ × ℚ)) (a b : ℕ × ℚ) :
    l.foldl bestStep (bestStep a b) = bestStep a (l.foldl bestStep b) := by
  induction l generalizing b with
  | nil => rfl
  | cons x l ih => rw [List.foldl_cons, List.foldl_cons, bestStep_assoc, ih]

/-- Shifting all indices by `k` commutes with the fold: values are
unaffected, the best index is offset by `k`. -/
theorem foldl_bestStep_shift (l : List ℚ) (k : ℕ) :
    ∀ (j : ℕ) (acc : ℕ × ℚ),
      (enumF (k + j) l).foldl bestStep (k + acc.1, acc.2) =
        (k + ((enumF j l).foldl bestStep acc).1,
          ((enumF j l).foldl bestStep acc).2) := by
  induction l with
  | nil => intro j acc; rfl
  | cons v r ih =>
    intro j acc
    obtain ⟨a1, a2⟩ := acc
    rw [enumF, enumF, List.foldl_cons, List.foldl_cons]
    have hstep : bestStep (k + a1, a2) (k + j, v) =
        (k + (bestStep (a1, a2) (j, v)).1, (bestStep (a1, a2) (j, v)).2) := by
      unfold bestStep
      dsimp only
      split_ifs <;> rfl
    rw [hstep]
    exact ih (j + 1) (bestStep (a1, a2) (j, v))

/-- Folding over an enumerated non-empty list equals taking its local
argmax, shifting, and merging into the accumulator. -/
theorem foldl_bestStep_absorb (v : ℚ) (r : List ℚ) (acc : ℕ × ℚ) (k : ℕ) :
    (enumF k (v :: r)).foldl bestStep acc =
      bestStep acc (k + (npArgmax (v :: r)).1, (npArgmax (v :: r)).2) := by
  rw [enumF, List.foldl_cons, foldl_bestStep_exchange]
  congr 1
  have := foldl_bestStep_shift r k 1 (0, v)
  simpa [npArgmax] using this

/-- Enumeration distributes over append, offsetting the second part. -/
theorem enumF_append {γ : Type} (n : ℕ) (l₁ l₂ : List γ) :
    enumF n (l₁ ++ l₂) = enumF n l₁ ++ enumF (n + l₁.length) l₂ := by
  induction l₁ generalizing n with
  | nil => simp [enumF]
  | cons v r ih =>
    show (n, v) :: enumF (n + 1) (r ++ l₂) =
      ((n, v) :: enumF (n + 1) r) ++ enumF (n + (r.length + 1)) l₂
    rw [List.cons_append, ih]
    have h1 : n + 1 + r.length = n + (r.length + 1) := by omega
    rw [h1]

/-- The blockwise loop, given enough fuel, is a single flat fold of
`bestStep` over the enumerated row. -/
theorem blockLoopAux_eq_foldl (B : ℕ) (hB : 0 < B) :
    ∀ (fuel : ℕ) (row : List ℚ) (k : ℕ) (acc : ℕ × ℚ),
      row.length ≤ fuel →
      blockLoopAux B fuel k acc row = (enumF k row).foldl bestStep acc := by
  intro fuel
  induction fuel with
  | zero =>
    intro row k acc h
    cases row with
    | nil => rfl
    | cons v r => simp at h
  | succ fuel ih =>
    intro row k acc h
    cases row with
    | nil => rfl
    | cons v r =>
      show blockLoopAux B fuel (k + B)
          (bestStep acc (k + (npArgmax (v :: r.take (B - 1))).1,
            (npArgmax (v :: r.take (B - 1))).2)) (r.drop (B - 1)) = _
      have hsplit : v :: r = (v :: r.take (B - 1)) ++ r.drop (B - 1) := by
        rw [List.cons_append, List.take_append_drop]
      conv_rhs => rw [hsplit]
      rw [enumF_append, List.foldl_append, foldl_bestStep_absorb]
      have hlen : (r.drop (B - 1)).length ≤ fuel := by
        have := List.length_drop (B - 1) r
        simp only [List.length_cons] at h
        omega
      rw [ih (r.drop (B - 1)) _ _ hlen]
      rcases le_or_lt (B - 1) r.length with hc | hc
      · have hblk : (v :: r.take (B - 1)).length = B := by
          simp [List.length_take]
          omega
        rw [hblk]
      · have hdrop : r.drop (B - 1) = [] := by
          apply List.drop_eq_nil_of_le
          omega
        rw [hdrop]
        rfl

/-- Core of C4: for any positive block ceiling, on a row whose true best
value exceeds the `-100` sentinel the blockwise computation returns exactly
the unblocked first-argmax pair. -/
theorem blockLoop_eq_npArgmax (B : ℕ) (hB : 0 < B) (row : List ℚ)
    (hmax : -100 < (npArgmax row).2) :
    blockLoop B 0 (0, -100) row = npArgmax row := by
  cases row with
  | nil => simp [npArgmax] at hmax
  | cons v r =>
    rw [blockLoop, blockLoopAux_eq_foldl B hB _ _ _ _ (le_refl _),
      foldl_bestStep_absorb, bestStep, if_pos hmax]
    simp

/-- C4 counterexample: as stated, blockwise and unblocked arg-max results
are NOT identical for every pair of input matrices.  For `X = [[1]]`,
`Z = [[-200], [-150]]` (so the similarity row is `[-200, -150]`, entirely
below the `-100` sentinel) and block ceiling `2`, the blockwise computation
keeps the sentinel pair `(0, -100)` while the unblocked arg-max is
`(1, -150)`: both the index and the value differ. -/
theorem blockwise_argmax_counterexample :
    blockLoop 2 0 (0, -100) (simRow [1] [[(-200 : ℚ)], [-150]]) = (0, -100) ∧
      npArgmax (simRow [1] [[(-200 : ℚ)], [-150]]) = (1, -150) ∧
      blockLoop 2 0 (0, -100) (simRow [1] [[(-200 : ℚ)], [-150]]) ≠
        npArgmax (simRow [1] [[(-200 : ℚ)], [-150]]) := by
  have h1 : blockLoop 2 0 (0, -100) (simRow [1] [[(-200 : ℚ)], [-150]]) =
      (0, -100) := by
    norm_num [simRow, dot, blockLoop, blockLoopAux, npArgmax, enumF, bestStep]
  have h2 : npArgmax (simRow [1] [[(-200 : ℚ)], [-150]]) = (1, -150) := by
    norm_num [simRow, dot, npArgmax, enumF, bestStep]
  refine ⟨h1, h2, ?_⟩
  rw [h1, h2]
  simp

/-- C4 (amended): for every pair of input matrices and every positive block
ceiling, the blockwise nearest-neighbour computation (row-wise arg-max
accumulated across column blocks via a running best-so-far, and the
column-wise analogue) yields the same arg-max index and value as the
single unblocked computation, for every row (resp. column) whose maximal
similarity exceeds the `-100` initialization sentinel. -/
theorem blockwise_argmax_eq (B : ℕ) (x z : List (List ℚ)) (hB : 0 < B) :
    (∀ xi ∈ x, -100 < (npArgmax (simRow xi z)).2 →
        blockLoop B 0 (0, -100) (simRow xi z) = npArgmax (simRow xi z)) ∧
      (∀ zk ∈ z, -100 < (npArgmax (simRow zk x)).2 →
        blockLoop B 0 (0, -100) (simRow zk x) = npArgmax (simRow zk x)) :=
  ⟨fun _ _ h => blockLoop_eq_npArgmax B hB _ h,
    fun _ _ h => blockLoop_eq_npArgmax B hB _ h⟩

/-- Witness for C4 (amended) on `X = Z = [[1]]` with block ceiling 1. -/
theorem blockwise_argmax_eq_witness :
    blockLoop 1 0 (0, -100) (simRow [1] [[(1 : ℚ)]]) =
      npArgmax (simRow [1] [[(1 : ℚ)]]) :=
  (blockwise_argmax_eq 1 [[(1 : ℚ)]] [[(1 : ℚ)]] Nat.one_pos).1 [1]
    (by simp) (by norm_num [simRow, dot, npArgmax, enumF])

/-! ### Coverage: loop invariant -/

/-- One dictionary line extends the known set exactly when both lookups
succeed. -/
theorem knownSet_cons {α : Type} [DecidableEq α] (sv tv : List α) (p : α × α)
    (d : List (α × α)) :
    knownSet sv tv (p :: d) =
      if p.1 ∈ sv ∧ p.2 ∈ tv then insert p.1 (knownSet sv tv d)
      else knownSet sv tv d := by
  by_cases h : p.1 ∈ sv ∧ p.2 ∈ tv <;> simp [knownSet, List.filter_cons, h]

/-- One dictionary line extends the raw OOV set exactly when a lookup
fails. -/
theorem badSet_cons {α : Type} [DecidableEq α] (sv tv : List α) (p : α × α)
    (d : List (α × α)) :
    badSet sv tv (p :: d) =
      if p.1 ∈ sv ∧ p.2 ∈ tv then badSet sv tv d
      else insert p.1 (badSet sv tv d) := by
  by_cases h : p.1 ∈ sv ∧ p.2 ∈ tv
  · simp [badSet, List.filter_cons, h]
  · have h' : p.1 ∉ sv ∨ p.2 ∉ tv := by tauto
    simp [badSet, List.filter_cons, h, h']

/-- Invariant of the dictionary-reading loop: starting from any state it
adds exactly the known words to `validation` and `vocab` and exactly the
sources of failing lines to `oov`. -/
theorem covFoldl_inv {α : Type} [DecidableEq α] (sv tv : List α)
    (dict : List (α × α)) :
    ∀ st : CovState α,
      dict.foldl (covStep sv tv) st =
        ⟨st.validation ∪ knownSet sv tv dict,
          st.vocab ∪ knownSet sv tv dict,
          st.oov ∪ badSet sv tv dict⟩ := by
  induction dict with
  | nil =>
    intro st
    simp [knownSet, badSet]
  | cons p d ih =>
    intro st
    rw [List.foldl_cons, ih, knownSet_cons, badSet_cons]
    by_cases h : p.1 ∈ sv ∧ p.2 ∈ tv
    · simp [covStep, h, Finset.insert_union, Finset.union_insert]
    · simp [covStep, h, Finset.insert_union, Finset.union_insert]

/-- The loop from the three empty sets computes exactly the known set
(twice) and the raw OOV set. -/
theorem covLoop_eq {α : Type} [DecidableEq α] (sv tv : List α)
    (dict : List (α × α)) :
    covLoop sv tv dict =
      ⟨knownSet sv tv dict, knownSet sv tv dict, badSet sv tv dict⟩ := by
  rw [covLoop, covFoldl_inv]
  simp

/-- Subtracting, `oov -= vocab` leaves exactly the strictly out-of-vocabulary source
words. -/
theorem badSet_sdiff_knownSet {α : Type} [DecidableEq α] (sv tv : List α)
    (dict : List (α × α)) :
    badSet sv tv dict \ knownSet sv tv dict = oovSet sv tv dict := by
  ext a
  simp only [badSet, knownSet, oovSet, srcSet, Finset.mem_sdiff,
    List.mem_toFinset, List.mem_map, List.mem_filter, decide_eq_true_eq,
    Bool.not_eq_true', decide_eq_false_iff_not]
  constructor
  · rintro ⟨⟨p, ⟨hpd, -⟩, rfl⟩, hn⟩
    exact ⟨⟨p, hpd, rfl⟩, hn⟩
  · rintro ⟨⟨p, hpd, rfl⟩, hn⟩
    refine ⟨⟨p, ⟨hpd, ?_⟩, rfl⟩, hn⟩
    intro hv
    exact hn ⟨p, ⟨hpd, hv⟩, rfl⟩

/-- C9: for every reference dictionary with `k` known source words (known
iff the word is in the source vocabulary and at least one of its gold
translations is in the target vocabulary) and `m` strictly
out-of-vocabulary source words (and at least one line, so that the
division is meaningful), the reported coverage equals exactly
`k / (k + m)`. -/
theorem coverage_exact {α : Type} [DecidableEq α] (sv tv : List α)
    (dict : List (α × α))
    (h : 0 < (knownSet sv tv dict).card + (oovSet sv tv dict).card) :
    validationCoverage sv tv dict =
      ((knownSet sv tv dict).card : ℚ) /
        (((knownSet sv tv dict).card : ℚ) +
          ((oovSet sv tv dict).card : ℚ)) := by
  rw [validationCoverage, covLoop_eq, badSet_sdiff_knownSet]

/-- Witness for C9: source vocabulary `[0]`, target vocabulary `[10]`,
dictionary `[(0, 10), (1, 11)]` — one known word, one OOV word, coverage
`1/2`. -/
theorem coverage_exact_witness :
    validationCoverage [0] [10] [((0 : ℕ), (10 : ℕ)), (1, 11)] =
      ((knownSet [0] [10] [((0 : ℕ), (10 : ℕ)), (1, 11)]).card : ℚ) /
        (((knownSet [0] [10] [((0 : ℕ), (10 : ℕ)), (1, 11)]).card : ℚ) +
          ((oovSet [0] [10] [((0 : ℕ), (10 : ℕ)), (1, 11)]).card : ℚ)) :=
  coverage_exact [0] [10] [(0, 10), (1, 11)] (by decide)

end VecMap
